import Mathlib

/-!
Verification of the attribution-extraction and dual-mode retrieval pipeline of
the `utm-order-analysis` repository (an Express server, `src/server.js`, with
several near-duplicate revisions of the same pipeline embedded in
`src/README.md`).  Pure functions of the JavaScript source are shallowly
embedded as Lean functions; JavaScript objects are modelled as ordered
association lists, JSON values as an inductive type, and fallible operations
return `Option`/`Except`.
-/

namespace UtmOrders

/-! ### String helpers (JavaScript string primitives over `List Char`) -/

/-- Model of the JavaScript expression `a || b` on strings: the empty string is
the only falsy string, so `a || b` is `a` when `a` is non-empty and `b`
otherwise. -/
def jsOr (a b : String) : String := if a = "" then b else a

/-- Check that the first list is a leading segment of the second
(model of `String.prototype.startsWith` restricted to the needles used by the
source). -/
def startsWithL : List Char → List Char → Bool
  | [], _ => true
  | _ :: _, [] => false
  | a :: as, b :: bs => a == b && startsWithL as bs

/-- Model of `needle.startsWith` applied to a string `s`
(i.e. of the JavaScript `s.startsWith(needle)`). -/
def strStarts (needle s : String) : Bool := startsWithL needle.data s.data

/-- Substring occurrence test on character lists, used to model
`String.prototype.includes`. -/
def hasSubL (needle : List Char) : List Char → Bool
  | [] => startsWithL needle []
  | c :: rest => startsWithL needle (c :: rest) || hasSubL needle rest

/-- Model of the JavaScript `s.includes(needle)`. -/
def hasSubS (needle s : String) : Bool := hasSubL needle.data s.data

/-- Model of `String.prototype.toLowerCase` (ASCII, which covers every key the
source compares). -/
def lowerStr (s : String) : String := String.mk (s.data.map Char.toLower)

/-- Split a character list at every occurrence of the separator character
(used to model splitting a URL query string on `&`). -/
def splitOnCharL (ch : Char) : List Char → List (List Char)
  | [] => [[]]
  | c :: rest =>
    let r := splitOnCharL ch rest
    if c = ch then [] :: r
    else
      match r with
      | [] => [[c]]
      | h :: t => (c :: h) :: t

/-! ### JSON values and JavaScript object semantics

JSON values (the results of `JSON.parse` and the shapes of raw orders) are an
inductive type.  `undefined` is collapsed into `null`: both are falsy, both
read as "absent", and the source never distinguishes them. -/

inductive Json where
  | null : Json
  | bool (b : Bool) : Json
  | num (n : Int) : Json
  | str (s : String) : Json
  | arr (items : List Json) : Json
  | obj (fields : List (String × Json)) : Json

/-- JavaScript truthiness of a JSON value (`undefined` is `null` here). -/
def Json.truthy : Json → Bool
  | .null => false
  | .bool b => b
  | .num n => n != 0
  | .str s => s != ""
  | .arr _ => true
  | .obj _ => true

/-- Model of JavaScript property access `j[k]`: the first binding of `k` in an
object, `null` (standing for `undefined`) otherwise. -/
def jsGet (j : Json) (k : String) : Json :=
  match j with
  | .obj fs => (((fs.find? (fun p => p.1 == k)).map Prod.snd).getD .null)
  | _ => .null

/-- Model of `a || b` on JSON values: `a` when truthy, otherwise `b`. -/
def jsOrJ (a b : Json) : Json := if a.truthy then a else b

/-- Model of the JavaScript `String(v)` coercion for the value shapes the
source feeds to it (strings, numbers, booleans, null); arrays and objects are
given their conventional coercions, which the pipeline never exercises. -/
def jsString : Json → String
  | .null => "null"
  | .bool true => "true"
  | .bool false => "false"
  | .num n => toString n
  | .str s => s
  | .arr _ => ""
  | .obj _ => "[object Object]"

/-- Read a JSON value as a string where the source assumes a string field
(site URLs, ids, timestamps): strings are taken verbatim, anything non-string
reads as the empty string. -/
def asString : Json → String
  | .str s => s
  | _ => ""

/-! ### The mutable `out` objects of the extractors

`extractUtmFromUrl` builds a plain object initialised with the five canonical
attribution keys and then assigns `out[k] = v` for arbitrary `utm_`-prefixed
keys, so it is modelled as an ordered association list with JavaScript
assignment semantics (update in place when present, append otherwise). -/

abbrev UtmObj : Type := List (String × String)

/-- JavaScript property assignment `out[k] = v` on an ordered object. -/
def setKey : UtmObj → String → String → UtmObj
  | [], k, v => [(k, v)]
  | (k', v') :: rest, k, v =>
    if k' = k then (k', v) :: rest else (k', v') :: setKey rest k v

/-- Property lookup returning `none` when the key is absent (the first binding
of the key in the ordered object). -/
def findVal : UtmObj → String → Option String
  | [], _ => none
  | p :: rest, k => if p.1 = k then some p.2 else findVal rest k

/-- Property read defaulting to the empty string (every read the source
performs is on a key initialised to `""`). -/
def getField (o : UtmObj) (k : String) : String := (findVal o k).getD ""

/-- The object literal `{ utm_source:'', utm_medium:'', utm_campaign:'',
utm_term:'', utm_content:'' }` that both extractors start from. -/
def utmInit : UtmObj :=
  [("utm_source", ""), ("utm_medium", ""), ("utm_campaign", ""),
   ("utm_term", ""), ("utm_content", "")]

/-! ### URL parsing

The source calls Node's WHATWG `new URL(...)` and iterates
`u.searchParams.entries()` inside `try`/`catch`.  The model below captures the
behaviour of that library call on the inputs this pipeline can meet: a scheme
must be present (letters followed by `://`), the authority component (up to
the first `/`, `?` or `#`) must be non-empty and contain no space, and the
query is the part after the first `?` (fragment excluded), split on `&`, each
piece split at its first `=`.  Percent-decoding is not modelled: the claims
under verification involve no encoded octets, and the model treats parameter
text literally.  A failed parse is `none`, modelling the thrown exception. -/

/-- Split a character list at the first occurrence of `://`, returning the
scheme characters and the remainder. -/
def findSchemeSplit : List Char → Option (List Char × List Char)
  | [] => none
  | c :: rest =>
    if c = ':' then
      match rest with
      | '/' :: '/' :: r2 => some ([], r2)
      | _ => none
    else (findSchemeSplit rest).map (fun p => (c :: p.1, p.2))

/-- Model of `new URL(s).searchParams.entries()`: `none` when the constructor
throws, otherwise the ordered (possibly repeating) key/value pairs of the
query string. -/
def parseUrlQuery (s : String) : Option (List (String × String)) :=
  match findSchemeSplit s.data with
  | none => none
  | some (scheme, rest) =>
    if scheme.isEmpty || !(scheme.all Char.isAlpha) then none
    else
      let auth := rest.takeWhile (fun c => !(c == '/' || c == '?' || c == '#'))
      let afterAuth := rest.dropWhile (fun c => !(c == '/' || c == '?' || c == '#'))
      if auth.isEmpty || auth.contains ' ' then none
      else
        let beforeHash := afterAuth.takeWhile (fun c => !(c == '#'))
        let qpart := beforeHash.dropWhile (fun c => !(c == '?'))
        let qchars : List Char := match qpart with | [] => [] | _ :: t => t
        let pieces := (splitOnCharL '&' qchars).filter (fun p => !p.isEmpty)
        some (pieces.map (fun p =>
          let k := p.takeWhile (fun c => !(c == '='))
          let r := p.dropWhile (fun c => !(c == '='))
          (String.mk k, String.mk (match r with | [] => [] | _ :: t => t))))

/-- The store-domain fallback `(SHOPIFY_STORE || 'example.com')` used when the
URL string has no scheme; the embedding models the environment variable as
unset, so the literal fallback applies. -/
def shopDomain : String := "example.com"

/-- The base-URL computation of `extractUtmFromUrl`:
`urlString.startsWith('http') ? urlString : 'https://' + (SHOP || 'example.com') + urlString`. -/
def baseUrl (s : String) : String :=
  if strStarts "http" s then s else "https://" ++ shopDomain ++ s

/-- Embedding of `extractUtmFromUrl` (`src/server.js` lines 18-29 and 302-313):
start from the five empty canonical keys, return them unchanged for a falsy
input or when URL parsing throws, otherwise assign `out[k] = v` for every
query parameter whose key starts with `utm_`. -/
def extractUtmFromUrl (urlString : String) : UtmObj :=
  if urlString = "" then utmInit
  else
    match parseUrlQuery (baseUrl urlString) with
    | none => utmInit
    | some ps =>
      ps.foldl
        (fun out kv => if strStarts "utm_" kv.1 then setKey out kv.1 kv.2 else out)
        utmInit

/-! ### Attribute extraction -/

/-- The `out` record of `extractUtmFromAttributes`; that function only ever
writes the five canonical keys it initialises, so a fixed structure is the
faithful shape of its result. -/
structure Utm5 where
  utm_source : String := ""
  utm_medium : String := ""
  utm_campaign : String := ""
  utm_term : String := ""
  utm_content : String := ""
deriving DecidableEq, Repr

/-- The all-empty record `{ utm_source:'', ..., utm_content:'' }`. -/
def utm5Init : Utm5 := {}

/-- One loop body of `extractUtmFromAttributes` after the key has been
lower-cased to `n` and the value coerced to `v`: skip when `v` is empty,
otherwise give each canonical field whose name occurs in `n` its first
non-empty value (`out.f = out.f || v`). -/
def applyUtm (out : Utm5) (n v : String) : Utm5 :=
  if v = "" then out
  else
    { utm_source := if hasSubS "utm_source" n then jsOr out.utm_source v else out.utm_source
      utm_medium := if hasSubS "utm_medium" n then jsOr out.utm_medium v else out.utm_medium
      utm_campaign := if hasSubS "utm_campaign" n then jsOr out.utm_campaign v else out.utm_campaign
      utm_term := if hasSubS "utm_term" n then jsOr out.utm_term v else out.utm_term
      utm_content := if hasSubS "utm_content" n then jsOr out.utm_content v else out.utm_content }

/-- The lower-cased key of an attribute item of the array shape:
`(a.name || a.key || '').toLowerCase()`. -/
def attrName (a : Json) : String :=
  lowerStr (asString (jsOrJ (jsGet a "name") (jsOrJ (jsGet a "key") (Json.str ""))))

/-- The coerced value of an attribute item of the array shape:
`a.value ? String(a.value) : ''`. -/
def attrVal (a : Json) : String :=
  if (jsGet a "value").truthy then jsString (jsGet a "value") else ""

/-- The coerced value of a map entry: `String(attrs[k] || '')`. -/
def mapVal (v : Json) : String := if v.truthy then jsString v else ""

/-- Loop body for the array shape. -/
def stepArr (out : Utm5) (a : Json) : Utm5 := applyUtm out (attrName a) (attrVal a)

/-- Loop body for the key-to-value map shape (`n = k.toLowerCase()`). -/
def stepMap (out : Utm5) (kv : String × Json) : Utm5 :=
  applyUtm out (lowerStr kv.1) (mapVal kv.2)

/-- Embedding of `extractUtmFromAttributes` (`src/server.js` lines 32-61 and
314-341): falsy input yields the empty record; an array is scanned item by
item through `stepArr`; any other object is scanned key by key in insertion
order through `stepMap`; truthy non-objects fall through unchanged. -/
def extractUtmFromAttributes (attrs : Json) : Utm5 :=
  if !attrs.truthy then utm5Init
  else
    match attrs with
    | .arr items => items.foldl stepArr utm5Init
    | .obj pairs => pairs.foldl stepMap utm5Init
    | _ => utm5Init

/-! ### Normalized rows -/

/-- The canonical normalized `OrderRow` produced by `mapOrderToRow`,
`mapOrderNodeToRow` and the REST loop of `src/server.js` (identifiers and
timestamps are carried as the strings the source stores). -/
structure Row where
  id : String := ""
  order_number : String := ""
  created_at : String := ""
  utm_source : String := ""
  utm_medium : String := ""
  utm_campaign : String := ""
  utm_term : String := ""
  utm_content : String := ""
deriving DecidableEq, Repr

/-- A raw REST order object as consumed by `mapOrderToRow` and
`fetchAllOrdersREST`; absent string fields are the empty string (both are
falsy, and the source only tests truthiness), absent attribute collections
are `Json.null`. -/
structure RestOrder where
  id : String := ""
  name : String := ""
  order_number : String := ""
  created_at : String := ""
  landing_site : String := ""
  referring_site : String := ""
  note_attributes : Json := .null
  attributes : Json := .null

/-- Embedding of `mapOrderToRow` (`src/server.js` lines 88-105): extract from
the landing URL, the referring URL and the note/custom attributes, then pick
each attribution field as `landing || referring || note || ''`. -/
def mapOrderToRow (o : RestOrder) : Row :=
  let landingUtm := extractUtmFromUrl o.landing_site
  let referringUtm := extractUtmFromUrl o.referring_site
  let noteUtm := extractUtmFromAttributes (jsOrJ o.note_attributes o.attributes)
  { id := o.id
    order_number := jsOr o.order_number (jsOr o.name "")
    created_at := o.created_at
    utm_source := jsOr (getField landingUtm "utm_source")
      (jsOr (getField referringUtm "utm_source") (jsOr noteUtm.utm_source ""))
    utm_medium := jsOr (getField landingUtm "utm_medium")
      (jsOr (getField referringUtm "utm_medium") (jsOr noteUtm.utm_medium ""))
    utm_campaign := jsOr (getField landingUtm "utm_campaign")
      (jsOr (getField referringUtm "utm_campaign") (jsOr noteUtm.utm_campaign ""))
    utm_term := jsOr (getField landingUtm "utm_term")
      (jsOr (getField referringUtm "utm_term") (jsOr noteUtm.utm_term ""))
    utm_content := jsOr (getField landingUtm "utm_content")
      (jsOr (getField referringUtm "utm_content") (jsOr noteUtm.utm_content "")) }

/-- Embedding of `mapOrderNodeToRow` (`src/server.js` lines 342-362), the
normalizer for GraphQL/bulk node shapes: alias lookups for the site, name and
timestamp fields, then the same `landing || referring || note || ''`
precedence chain per attribution field. -/
def mapOrderNodeToRow (node : Json) : Row :=
  let landing := jsOrJ (jsGet node "landingSite")
    (jsOrJ (jsGet node "landing_site") (jsOrJ (jsGet node "landingSiteUrl") (Json.str "")))
  let referring := jsOrJ (jsGet node "referringSite")
    (jsOrJ (jsGet node "referring_site") (Json.str ""))
  let landingU := extractUtmFromUrl (asString landing)
  let referringU := extractUtmFromUrl (asString referring)
  let noteU := extractUtmFromAttributes
    (jsOrJ (jsGet node "noteAttributes")
      (jsOrJ (jsGet node "note_attributes")
        (jsOrJ (jsGet node "attributes") (jsGet node "attrs"))))
  { id := asString (jsOrJ (jsGet node "id") (Json.str ""))
    order_number := asString (jsOrJ (jsGet node "order_number")
      (jsOrJ (jsGet node "orderNumber") (jsOrJ (jsGet node "name") (Json.str ""))))
    created_at := asString (jsOrJ (jsGet node "createdAt")
      (jsOrJ (jsGet node "created_at") (Json.str "")))
    utm_source := jsOr (getField landingU "utm_source")
      (jsOr (getField referringU "utm_source") (jsOr noteU.utm_source ""))
    utm_medium := jsOr (getField landingU "utm_medium")
      (jsOr (getField referringU "utm_medium") (jsOr noteU.utm_medium ""))
    utm_campaign := jsOr (getField landingU "utm_campaign")
      (jsOr (getField referringU "utm_campaign") (jsOr noteU.utm_campaign ""))
    utm_term := jsOr (getField landingU "utm_term")
      (jsOr (getField referringU "utm_term") (jsOr noteU.utm_term ""))
    utm_content := jsOr (getField landingU "utm_content")
      (jsOr (getField referringU "utm_content") (jsOr noteU.utm_content "")) }

/-! ### The REST retrieval loop -/

/-- The `Object.assign({}, extractUtmFromUrl(o.landing_site),
extractUtmFromAttributes(o.note_attributes || o.attributes))` merge inside
`fetchAllOrdersREST` (`src/server.js` line 480): the five canonical keys of the
attribute record are assigned over the landing-URL record in declaration
order, unconditionally. -/
def restUtmMerge (landing : UtmObj) (note : Utm5) : UtmObj :=
  setKey (setKey (setKey (setKey (setKey landing
    "utm_source" note.utm_source)
    "utm_medium" note.utm_medium)
    "utm_campaign" note.utm_campaign)
    "utm_term" note.utm_term)
    "utm_content" note.utm_content

/-- The row pushed per order by `fetchAllOrdersREST` (`src/server.js` lines
476-481).  Extra `utm_`-prefixed keys the landing URL may contribute beyond
the canonical five are spread into the JavaScript row object but read by no
consumer (the endpoints project the canonical columns), so the row model keeps
the canonical fields. -/
def restRow (o : RestOrder) : Row :=
  let merged := restUtmMerge (extractUtmFromUrl o.landing_site)
    (extractUtmFromAttributes (jsOrJ o.note_attributes o.attributes))
  { id := o.id
    order_number := jsOr o.order_number (jsOr o.name "")
    created_at := o.created_at
    utm_source := getField merged "utm_source"
    utm_medium := getField merged "utm_medium"
    utm_campaign := getField merged "utm_campaign"
    utm_term := getField merged "utm_term"
    utm_content := getField merged "utm_content" }

/-- The inner `for (const o of data.orders)` loop of `fetchAllOrdersREST`:
push the normalized row, then break as soon as `mapped.length >= maxResults`.
Note the push happens before the check. -/
def restPush (maxResults : Nat) : List RestOrder → List Row → List Row
  | [], acc => acc
  | o :: os, acc =>
    let acc2 := acc ++ [restRow o]
    if maxResults ≤ acc2.length then acc2 else restPush maxResults os acc2

/-- The `while (url)` loop of `fetchAllOrdersREST` (`src/server.js` lines
463-495) over the successive upstream pages: each processed page is one
request; after a page, the loop stops when the cap is reached, otherwise it
follows the `rel="next"` link, which is present exactly when further pages
remain.  Returns the accumulated rows and the number of page requests
issued. -/
def restLoop (maxResults : Nat) : List (List RestOrder) → List Row → List Row × Nat
  | [], acc => (acc, 0)
  | pg :: rest, acc =>
    let acc2 := restPush maxResults pg acc
    if maxResults ≤ acc2.length then (acc2, 1)
    else
      match rest with
      | [] => (acc2, 1)
      | p2 :: r2 =>
        let res := restLoop maxResults (p2 :: r2) acc2
        (res.1, res.2 + 1)

/-- Embedding of `fetchAllOrdersREST` over the sequence of pages the upstream
serves (each page linked from its predecessor via the `rel="next"` header,
except the last). -/
def fetchAllOrdersREST (pages : List (List RestOrder)) (maxResults : Nat) :
    List Row × Nat :=
  restLoop maxResults pages []

/-! ### The count probe -/

/-- An upstream response to the count request: HTTP success flag, status code
and raw body text (used in the error message), and the parsed JSON body. -/
structure CountResp where
  ok : Bool
  status : Nat := 200
  bodyText : String := ""
  body : Json := .null

/-- Embedding of `fetchOrdersCount` (`src/README.md` lines 219-229 and
619-629): one request to the count endpoint; a non-success response throws
`Shopify count error: ...`; a success returns `j.count || 0`, i.e. the `count`
field when truthy and the number `0` otherwise. -/
def fetchOrdersCount (r : CountResp) : Except String Json :=
  if !r.ok then
    .error ("Shopify count error: " ++ toString r.status ++ " - " ++ r.bodyText)
  else
    .ok (jsOrJ (jsGet r.body "count") (Json.num 0))

/-! ### The bulk download loop -/

/-- Rows contributed by one successfully parsed line of the bulk export file
(`src/server.js` lines 423-435): a wrapped `orders.edges` collection yields the
row of every truthy edge with a truthy `node`; otherwise a truthy `node` field
yields that single node's row; otherwise the parsed value itself is treated as
the node.  (A truthy non-array `edges` would make the JavaScript `for...of`
throw; no bulk export produces that shape and the model returns no rows
there.) -/
def lineRows (parsed : Json) : List Row :=
  let ordersJ := jsGet parsed "orders"
  let edgesJ := jsGet ordersJ "edges"
  if parsed.truthy && ordersJ.truthy && edgesJ.truthy then
    match edgesJ with
    | .arr es =>
      (es.filter (fun e => e.truthy && (jsGet e "node").truthy)).map
        (fun e => mapOrderNodeToRow (jsGet e "node"))
    | _ => []
  else if parsed.truthy && (jsGet parsed "node").truthy then
    [mapOrderNodeToRow (jsGet parsed "node")]
  else
    [mapOrderNodeToRow parsed]

/-- The inner `for (const r of rows)` loop of the bulk download: emit each row
and bump `count`, breaking as soon as `preview && count >= preview`.  Returns
the emitted rows, the updated count and whether the break fired. -/
def emitRows (preview : Nat) : List Row → Nat → List Row × Nat × Bool
  | [], count => ([], count, false)
  | r :: rest, count =>
    let c2 := count + 1
    if preview ≠ 0 ∧ preview ≤ c2 then ([r], c2, true)
    else
      let res := emitRows preview rest c2
      (r :: res.1, res.2.1, res.2.2)

/-- The `for await (const line of rl)` loop of `/api/bulk/download`
(`src/server.js` lines 410-449) over the parse outcomes of the export file's
lines (`none` models a blank line or one on which `JSON.parse` throws, which
the loop skips with `continue`).  Returns the emitted rows and the number of
lines consumed from the stream before the loop ended; breaking out early
closes the underlying readline stream without consuming the remaining
lines. -/
def bulkLoop (preview : Nat) : List (Option Json) → Nat → List Row × Nat
  | [], _ => ([], 0)
  | l :: rest, count =>
    match l with
    | none =>
      let res := bulkLoop preview rest count
      (res.1, res.2 + 1)
    | some j =>
      let er := emitRows preview (lineRows j) count
      if er.2.2 then (er.1, 1)
      else
        let res := bulkLoop preview rest er.2.1
        (er.1 ++ res.1, res.2 + 1)

/-- Rows contributed by one line of the export file given its parse outcome:
a blank or unparseable line contributes none. -/
def lineRowsOpt : Option Json → List Row
  | none => []
  | some j => lineRows j

/-! ### CSV rendering -/

/-- Model of `v.replace(/"/g, '""')`: double every double quote. -/
def csvEscapeChars : List Char → List Char
  | [] => []
  | c :: rest =>
    if c = '"' then '"' :: '"' :: csvEscapeChars rest
    else c :: csvEscapeChars rest

/-- One CSV cell as emitted by the export loops (`src/server.js` lines
438-443): a `null`/`undefined` value (modelled `none`) becomes the empty
string, then the value is wrapped in double quotes with internal quotes
doubled. -/
def csvCell (x : Option String) : String :=
  let v := x.getD ""
  String.mk ('"' :: (csvEscapeChars v.data ++ ['"']))

/-- A standard CSV reader for the body of a quoted cell: a doubled quote is a
literal quote, a single quote terminates the cell (here required to end the
input, since one whole cell is parsed). -/
def csvUnqGo : List Char → Option (List Char)
  | [] => none
  | c :: rest =>
    if c = '"' then
      match rest with
      | [] => some []
      | c2 :: rest2 =>
        if c2 = '"' then (csvUnqGo rest2).map (fun t => '"' :: t)
        else none
    else (csvUnqGo rest).map (fun t => c :: t)

/-- A standard CSV reader for one quoted cell: expects an opening quote, then
parses the quoted body. -/
def csvUnquote : List Char → Option (List Char)
  | '"' :: rest => csvUnqGo rest
  | _ => none

/-- Model of the JavaScript property read `r[k]` on a row for the CSV column
names: `none` models `undefined` for a column outside the row's fields. -/
def rowGet (r : Row) (k : String) : Option String :=
  if k = "id" then some r.id
  else if k = "order_number" then some r.order_number
  else if k = "created_at" then some r.created_at
  else if k = "utm_source" then some r.utm_source
  else if k = "utm_medium" then some r.utm_medium
  else if k = "utm_campaign" then some r.utm_campaign
  else if k = "utm_term" then some r.utm_term
  else if k = "utm_content" then some r.utm_content
  else none

/-- The CSV column projection of the bulk download and CSV export routes. -/
def bulkColumns : List String :=
  ["order_number", "created_at", "utm_source", "utm_medium", "utm_campaign",
   "utm_term", "utm_content"]

/-- One emitted CSV record: the quoted cells of the projected columns joined
with commas. -/
def renderRecord (r : Row) : String :=
  String.intercalate "," (bulkColumns.map (fun k => csvCell (rowGet r k)))

/-- The record separator written by the bulk download of `src/server.js`
(lines 408 and 444): the source file contains the single-quoted literal
with an escaped backslash, so the written text is the two characters
backslash + n, not a newline. -/
def sepServerJs : String := "\\n"

/-- The record separator written by every bulk/CSV loop embedded in
`src/README.md` (e.g. lines 332/356): a real newline. -/
def sepReadme : String := "\n"

/-- The byte stream written by the bulk download: the header record followed
by one record per emitted row, each terminated by the given separator. -/
def renderOutput (sep : String) (rows : List Row) : String :=
  String.join ((String.intercalate "," bulkColumns ++ sep) ::
    rows.map (fun r => renderRecord r ++ sep))

/-! ### Sorting by timestamp -/

/-- Model of `new Date(s).getTime()` restricted to the canonical same-format
ISO-8601 UTC timestamps the upstream delivers: the concatenated decimal digits
of such a string form a number that orders exactly as the instant does. -/
def dateVal (s : String) : Nat :=
  s.data.foldl (fun acc c => if c.isDigit then acc * 10 + (c.toNat - 48) else acc) 0

/-- The row shape of the `src/README.md` revision at lines 153-176, which
formats `created_at` for display (IST) and keeps the raw ISO timestamp in
`created_at_raw`. -/
structure Row2 where
  id : String := ""
  order_number : String := ""
  created_at : String := ""
  created_at_raw : String := ""
  utm_source : String := ""
  utm_medium : String := ""
  utm_campaign : String := ""
  utm_term : String := ""
  utm_content : String := ""
deriving DecidableEq, Repr

/-- The comparator `(a,b) => new Date(b.created_at_raw || b.created_at) -
new Date(a.created_at_raw || a.created_at)` of `src/README.md` line 389, as the
descending order relation it sorts by. -/
def row2Desc (a b : Row2) : Prop :=
  dateVal (jsOr b.created_at_raw b.created_at) ≤ dateVal (jsOr a.created_at_raw a.created_at)

/-- The comparator `(a,b) => new Date(b.created_at) - new Date(a.created_at)`
of `src/server.js` lines 126 and 505 (where `created_at` holds the raw
upstream timestamp), as the descending order relation it sorts by. -/
def rowDesc (a b : Row) : Prop :=
  dateVal b.created_at ≤ dateVal a.created_at

instance : DecidableRel row2Desc := fun a b => by
  unfold row2Desc; infer_instance

instance : DecidableRel rowDesc := fun a b => by
  unfold rowDesc; infer_instance

instance : IsTotal Row2 row2Desc :=
  ⟨fun _ _ => Nat.le_total _ _⟩

instance : IsTrans Row2 row2Desc :=
  ⟨fun _ _ _ h1 h2 => Nat.le_trans h2 h1⟩

instance : IsTotal Row rowDesc :=
  ⟨fun _ _ => Nat.le_total _ _⟩

instance : IsTrans Row rowDesc :=
  ⟨fun _ _ _ h1 h2 => Nat.le_trans h2 h1⟩

/-- Model of `createdRows.sort(comparator)` for the `created_at_raw` revision:
`Array.prototype.sort` is a stable comparison sort, modelled as insertion
sort by the comparator's order. -/
def sortRows2 (l : List Row2) : List Row2 := List.insertionSort row2Desc l

/-- Model of `mapped.sort(comparator)` for the revisions whose rows carry the
raw timestamp in `created_at`. -/
def sortRows (l : List Row) : List Row := List.insertionSort rowDesc l

/-! ### Specification-side definitions (for comparison with the embedded code)

These definitions follow the spec's words, not the source, and exist solely to
be compared with the embedded functions in the theorems below. -/

/-- Spec reading of first-match-wins per field over the array shape: the value
of the first entry whose coerced value is non-empty and whose lower-cased name
contains the canonical field name. -/
def fieldFirstArr (key : String) : List Json → String
  | [] => ""
  | a :: rest =>
    if attrVal a ≠ "" ∧ hasSubS key (attrName a) then attrVal a
    else fieldFirstArr key rest

/-- Spec reading of first-match-wins per field over the map shape. -/
def fieldFirstMap (key : String) : List (String × Json) → String
  | [] => ""
  | kv :: rest =>
    if mapVal kv.2 ≠ "" ∧ hasSubS key (lowerStr kv.1) then mapVal kv.2
    else fieldFirstMap key rest

/-- Spec reading of "the last occurrence's value wins" for a query-parameter
key: the value of the last pair carrying that key, if any. -/
def lastUtmVal (k : String) : List (String × String) → Option String
  | [] => none
  | p :: ps =>
    match lastUtmVal k ps with
    | some v => some v
    | none => if p.1 = k then some p.2 else none

/-! ### Concrete fixtures used by the closed theorems and witnesses -/

/-- A REST order carrying a `utm_source` in all three attribution sources. -/
def oLandRefNote : RestOrder :=
  { landing_site := "https://shop.example/?utm_source=land"
    referring_site := "https://ref.example/?utm_source=ref"
    note_attributes := Json.arr
      [Json.obj [("name", Json.str "utm_source"), ("value", Json.str "note")]] }

/-- A REST order whose landing URL carries `utm_source` while its note
attributes carry only `utm_medium`. -/
def oLandOnly : RestOrder :=
  { landing_site := "https://shop.example/?utm_source=land"
    note_attributes := Json.arr
      [Json.obj [("name", Json.str "utm_medium"), ("value", Json.str "email")]] }

/-- The GraphQL/bulk node shape of `oLandRefNote`. -/
def nodeLandRefNote : Json :=
  Json.obj
    [("id", Json.str "gid1"),
     ("name", Json.str "#1001"),
     ("createdAt", Json.str "2024-01-02T03:04:05Z"),
     ("landingSite", Json.str "https://shop.example/?utm_source=land"),
     ("referringSite", Json.str "https://ref.example/?utm_source=ref"),
     ("noteAttributes", Json.arr
       [Json.obj [("name", Json.str "utm_source"), ("value", Json.str "note")]])]

/-- A minimal raw REST order for the pagination fixtures. -/
def oPage (i : Nat) : RestOrder :=
  { id := toString i, created_at := "2024-01-01T00:00:00Z" }

/-- A bulk-export line of the wrapped-edges shape with two order nodes. -/
def lineWrappedEdges : Json :=
  Json.obj [("orders", Json.obj [("edges", Json.arr
    [Json.obj [("node", Json.obj
       [("name", Json.str "#A"), ("landingSite", Json.str "/?utm_source=g")])],
     Json.obj [("node", Json.obj [("name", Json.str "#B")])]])])]

/-- A bulk-export line of the single wrapped-node shape. -/
def lineSingleNode : Json :=
  Json.obj [("node", Json.obj [("name", Json.str "#C")])]

/-- A bulk-export line that is a bare order-shaped object. -/
def lineBareObject : Json :=
  Json.obj [("name", Json.str "#D"), ("createdAt", Json.str "2024-01-02T03:04:05Z")]

/-- A minimal bare order line for the preview fixture. -/
def lineBareMinimal : Json := Json.obj [("name", Json.str "#1")]

/-- The normalized row of `lineBareMinimal`. -/
def rowBareMinimal : Row := { order_number := "#1" }

/-- The normalized rows of the two nodes of `lineWrappedEdges`. -/
def rowWrappedA : Row := { order_number := "#A", utm_source := "g" }

/-- Second node row of `lineWrappedEdges`. -/
def rowWrappedB : Row := { order_number := "#B" }

/-- The normalized row of `lineSingleNode`. -/
def rowSingleC : Row := { order_number := "#C" }

/-- The normalized row of `lineBareObject`. -/
def rowBareD : Row := { order_number := "#D", created_at := "2024-01-02T03:04:05Z" }

/-- A display-formatted row with an early raw timestamp. -/
def row2Early : Row2 :=
  { created_at_raw := "2024-01-01T00:00:00Z", created_at := "2024-01-01 05:30:00" }

/-- A display-formatted row with a later raw timestamp. -/
def row2Late : Row2 :=
  { created_at_raw := "2024-05-01T00:00:00Z", created_at := "2024-05-01 05:30:00" }

/-- An OK count response whose body lacks a `count` field. -/
def countRespNoCount : CountResp :=
  { ok := true, status := 200, bodyText := "", body := Json.obj [] }

/-- An OK count response reporting a count of 7. -/
def countRespSeven : CountResp :=
  { ok := true, status := 200, bodyText := "", body := Json.obj [("count", Json.num 7)] }

/-! ## Helper lemmas -/

theorem jsOr_empty_right (a : String) : jsOr a "" = a := by
  unfold jsOr; split <;> simp_all

theorem jsOr_empty_left (b : String) : jsOr "" b = b := rfl

theorem jsOr_of_ne {a : String} (h : a ≠ "") (b : String) : jsOr a b = a :=
  if_neg h

theorem jsOr_assoc (a b c : String) : jsOr (jsOr a b) c = jsOr a (jsOr b c) := by
  by_cases ha : a = "" <;> by_cases hb : b = "" <;> simp [jsOr, ha, hb]

theorem findVal_setKey_self (o : UtmObj) (k v : String) :
    findVal (setKey o k v) k = some v := by
  induction o with
  | nil => simp [setKey, findVal]
  | cons p rest ih =>
    by_cases h : p.1 = k
    · simp [setKey, h, findVal]
    · simpa [setKey, h, findVal] using ih

theorem findVal_setKey_ne (o : UtmObj) (k k' v : String) (h : k' ≠ k) :
    findVal (setKey o k' v) k = findVal o k := by
  induction o with
  | nil => simp [setKey, findVal, h]
  | cons p rest ih =>
    by_cases hp : p.1 = k'
    · simp [setKey, hp, findVal, h, hp ▸ h]
    · by_cases hk : p.1 = k
      · simp [setKey, hp, findVal, hk, Ne.symm h]
      · simpa [setKey, hp, findVal, hk] using ih

/-- The step function folded by `extractUtmFromUrl` over the query
parameters. -/
theorem findVal_foldParams (k : String) (hk : strStarts "utm_" k = true) :
    ∀ (ps : List (String × String)) (acc : UtmObj),
      findVal (ps.foldl
        (fun out kv => if strStarts "utm_" kv.1 then setKey out kv.1 kv.2 else out)
        acc) k =
      (match lastUtmVal k ps with
       | some v => some v
       | none => findVal acc k) := by
  intro ps
  induction ps with
  | nil => intro acc; simp [lastUtmVal]
  | cons p rest ih =>
    intro acc
    simp only [List.foldl_cons, lastUtmVal]
    rw [ih]
    cases hlast : lastUtmVal k rest with
    | some v => simp
    | none =>
      simp only
      by_cases hpk : p.1 = k
      · subst hpk
        simp only [hk, if_true]
        rw [findVal_setKey_self]
      · simp only [if_neg hpk]
        by_cases hs : strStarts "utm_" p.1
        · rw [if_pos hs, findVal_setKey_ne _ _ _ _ hpk]
        · rw [if_neg hs]

theorem extractArr_eq (items : List Json) :
    extractUtmFromAttributes (Json.arr items) = items.foldl stepArr utm5Init := by
  simp [extractUtmFromAttributes, Json.truthy]

theorem extractMap_eq (pairs : List (String × Json)) :
    extractUtmFromAttributes (Json.obj pairs) = pairs.foldl stepMap utm5Init := by
  simp [extractUtmFromAttributes, Json.truthy]

/-- Generic accumulator lemma for the array shape of
`extractUtmFromAttributes`: any field selector commuting with `applyUtm` in
the stated way reads, after the fold, its first non-empty matching value. -/
theorem foldArr_sel (f : Utm5 → String) (key : String)
    (hf : ∀ out n v, f (applyUtm out n v) =
      if v ≠ "" ∧ hasSubS key n then jsOr (f out) v else f out) :
    ∀ (items : List Json) (out : Utm5),
      f (items.foldl stepArr out) = jsOr (f out) (fieldFirstArr key items) := by
  intro items
  induction items with
  | nil => intro out; simp [fieldFirstArr, jsOr_empty_right]
  | cons a rest ih =>
    intro out
    simp only [List.foldl_cons, fieldFirstArr]
    rw [ih, show stepArr out a = applyUtm out (attrName a) (attrVal a) from rfl, hf]
    by_cases hc : attrVal a ≠ "" ∧ hasSubS key (attrName a)
    · rw [if_pos hc, if_pos hc, jsOr_assoc, jsOr_of_ne hc.1]
    · rw [if_neg hc, if_neg hc]

/-- Generic accumulator lemma for the map shape of
`extractUtmFromAttributes`. -/
theorem foldMap_sel (f : Utm5 → String) (key : String)
    (hf : ∀ out n v, f (applyUtm out n v) =
      if v ≠ "" ∧ hasSubS key n then jsOr (f out) v else f out) :
    ∀ (pairs : List (String × Json)) (out : Utm5),
      f (pairs.foldl stepMap out) = jsOr (f out) (fieldFirstMap key pairs) := by
  intro pairs
  induction pairs with
  | nil => intro out; simp [fieldFirstMap, jsOr_empty_right]
  | cons kv rest ih =>
    intro out
    simp only [List.foldl_cons, fieldFirstMap]
    rw [ih, show stepMap out kv = applyUtm out (lowerStr kv.1) (mapVal kv.2) from rfl, hf]
    by_cases hc : mapVal kv.2 ≠ "" ∧ hasSubS key (lowerStr kv.1)
    · rw [if_pos hc, if_pos hc, jsOr_assoc, jsOr_of_ne hc.1]
    · rw [if_neg hc, if_neg hc]

theorem applyUtm_source (out : Utm5) (n v : String) :
    (applyUtm out n v).utm_source =
      if v ≠ "" ∧ hasSubS "utm_source" n then jsOr out.utm_source v
      else out.utm_source := by
  unfold applyUtm
  by_cases hv : v = ""
  · simp [hv]
  · by_cases hs : hasSubS "utm_source" n <;> simp [hv, hs]

theorem applyUtm_medium (out : Utm5) (n v : String) :
    (applyUtm out n v).utm_medium =
      if v ≠ "" ∧ hasSubS "utm_medium" n then jsOr out.utm_medium v
      else out.utm_medium := by
  unfold applyUtm
  by_cases hv : v = ""
  · simp [hv]
  · by_cases hs : hasSubS "utm_medium" n <;> simp [hv, hs]

theorem applyUtm_campaign (out : Utm5) (n v : String) :
    (applyUtm out n v).utm_campaign =
      if v ≠ "" ∧ hasSubS "utm_campaign" n then jsOr out.utm_campaign v
      else out.utm_campaign := by
  unfold applyUtm
  by_cases hv : v = ""
  · simp [hv]
  · by_cases hs : hasSubS "utm_campaign" n <;> simp [hv, hs]

theorem applyUtm_term (out : Utm5) (n v : String) :
    (applyUtm out n v).utm_term =
      if v ≠ "" ∧ hasSubS "utm_term" n then jsOr out.utm_term v
      else out.utm_term := by
  unfold applyUtm
  by_cases hv : v = ""
  · simp [hv]
  · by_cases hs : hasSubS "utm_term" n <;> simp [hv, hs]

theorem applyUtm_content (out : Utm5) (n v : String) :
    (applyUtm out n v).utm_content =
      if v ≠ "" ∧ hasSubS "utm_content" n then jsOr out.utm_content v
      else out.utm_content := by
  unfold applyUtm
  by_cases hv : v = ""
  · simp [hv]
  · by_cases hs : hasSubS "utm_content" n <;> simp [hv, hs]

theorem csvUnqGo_escape (l : List Char) :
    csvUnqGo (csvEscapeChars l ++ ['"']) = some l := by
  induction l with
  | nil => simp [csvEscapeChars, csvUnqGo]
  | cons c rest ih =>
    by_cases hc : c = '"'
    · subst hc
      simp [csvEscapeChars, csvUnqGo, ih]
    · have h2 : csvEscapeChars (c :: rest) = c :: csvEscapeChars rest := by
        simp [csvEscapeChars, hc]
      rw [h2, List.cons_append, csvUnqGo.eq_def]
      simp [hc, ih]

/-! ## Claim theorems -/

/-- C4: `extractUtmFromUrl` is total (it is a Lean function, so this is by
construction — the `try`/`catch` of the source is the `Option` in
`parseUrlQuery`), and on any input whose URL parse fails — in particular the
malformed string `"not a url ::"` — it returns the record whose five utm
fields are all the empty string. -/
theorem extractUtmFromUrl_total_and_malformed_empty :
    extractUtmFromUrl "not a url ::" = utmInit ∧
    ∀ s : String, parseUrlQuery (baseUrl s) = none → extractUtmFromUrl s = utmInit := by
  refine ⟨by decide, ?_⟩
  intro s h
  by_cases hs : s = ""
  · simp [extractUtmFromUrl, hs]
  · simp [extractUtmFromUrl, hs, h]

theorem extractUtmFromUrl_total_and_malformed_empty_witness :
    parseUrlQuery (baseUrl "not a url ::") = none ∧
    extractUtmFromUrl "not a url ::" = utmInit :=
  ⟨by decide,
   extractUtmFromUrl_total_and_malformed_empty.2 "not a url ::" (by decide)⟩

/-- C5: for every attribute collection — ordered `(name, value)` items or a
key-to-value map — `extractUtmFromAttributes` lower-cases each key, matches it
by substring against the five canonical field names, and gives each field the
first non-empty matching value (later matches are ignored); in particular the
collection `[(name UTM_Source, a), (name utm_source_x, b)]` yields
`utm_source = "a"`. -/
theorem extractUtmFromAttributes_first_match_wins :
    (∀ items : List Json,
      (extractUtmFromAttributes (Json.arr items)).utm_source = fieldFirstArr "utm_source" items ∧
      (extractUtmFromAttributes (Json.arr items)).utm_medium = fieldFirstArr "utm_medium" items ∧
      (extractUtmFromAttributes (Json.arr items)).utm_campaign = fieldFirstArr "utm_campaign" items ∧
      (extractUtmFromAttributes (Json.arr items)).utm_term = fieldFirstArr "utm_term" items ∧
      (extractUtmFromAttributes (Json.arr items)).utm_content = fieldFirstArr "utm_content" items) ∧
    (∀ pairs : List (String × Json),
      (extractUtmFromAttributes (Json.obj pairs)).utm_source = fieldFirstMap "utm_source" pairs ∧
      (extractUtmFromAttributes (Json.obj pairs)).utm_medium = fieldFirstMap "utm_medium" pairs ∧
      (extractUtmFromAttributes (Json.obj pairs)).utm_campaign = fieldFirstMap "utm_campaign" pairs ∧
      (extractUtmFromAttributes (Json.obj pairs)).utm_term = fieldFirstMap "utm_term" pairs ∧
      (extractUtmFromAttributes (Json.obj pairs)).utm_content = fieldFirstMap "utm_content" pairs) ∧
    (extractUtmFromAttributes (Json.arr
      [Json.obj [("name", Json.str "UTM_Source"), ("value", Json.str "a")],
       Json.obj [("name", Json.str "utm_source_x"), ("value", Json.str "b")]])).utm_source = "a" := by
  refine ⟨fun items => ?_, fun pairs => ?_, by decide⟩
  · rw [extractArr_eq]
    refine ⟨?_, ?_, ?_, ?_, ?_⟩
    · simpa [utm5Init, jsOr] using
        foldArr_sel (fun u => u.utm_source) "utm_source" applyUtm_source items utm5Init
    · simpa [utm5Init, jsOr] using
        foldArr_sel (fun u => u.utm_medium) "utm_medium" applyUtm_medium items utm5Init
    · simpa [utm5Init, jsOr] using
        foldArr_sel (fun u => u.utm_campaign) "utm_campaign" applyUtm_campaign items utm5Init
    · simpa [utm5Init, jsOr] using
        foldArr_sel (fun u => u.utm_term) "utm_term" applyUtm_term items utm5Init
    · simpa [utm5Init, jsOr] using
        foldArr_sel (fun u => u.utm_content) "utm_content" applyUtm_content items utm5Init
  · rw [extractMap_eq]
    refine ⟨?_, ?_, ?_, ?_, ?_⟩
    · simpa [utm5Init, jsOr] using
        foldMap_sel (fun u => u.utm_source) "utm_source" applyUtm_source pairs utm5Init
    · simpa [utm5Init, jsOr] using
        foldMap_sel (fun u => u.utm_medium) "utm_medium" applyUtm_medium pairs utm5Init
    · simpa [utm5Init, jsOr] using
        foldMap_sel (fun u => u.utm_campaign) "utm_campaign" applyUtm_campaign pairs utm5Init
    · simpa [utm5Init, jsOr] using
        foldMap_sel (fun u => u.utm_term) "utm_term" applyUtm_term pairs utm5Init
    · simpa [utm5Init, jsOr] using
        foldMap_sel (fun u => u.utm_content) "utm_content" applyUtm_content pairs utm5Init

/-- C9: the CSV cell renderer wraps every value in double quotes with internal
quotes doubled, renders `null`/`undefined` as the empty string, and parsing
the emitted cell with a standard CSV reader recovers the original value
(escape-then-parse is the identity, for every value, so in particular for one
containing a double quote and a comma). -/
theorem csvCell_escape_roundtrip :
    (∀ s : String, csvUnquote (csvCell (some s)).data = some s.data) ∧
    csvCell none = csvCell (some "") ∧
    csvCell (some "a\",b") = "\"a\"\",b\"" := by
  refine ⟨fun s => ?_, rfl, by decide⟩
  show csvUnqGo (csvEscapeChars s.data ++ ['"']) = some s.data
  exact csvUnqGo_escape s.data

/-- C10: for every URL whose query carries a `utm_`-prefixed key, the record
returned by `extractUtmFromUrl` maps that key — including keys beyond the five
canonical fields, such as `utm_id` — to the value of its last occurrence; keys
not occurring keep their initial binding (present and empty for the canonical
five, absent otherwise). -/
theorem extractUtmFromUrl_keeps_extra_utm_keys :
    ∀ (s : String) (ps : List (String × String)),
      s ≠ "" → parseUrlQuery (baseUrl s) = some ps →
      ∀ k : String, strStarts "utm_" k = true →
        findVal (extractUtmFromUrl s) k =
          (match lastUtmVal k ps with
           | some v => some v
           | none => findVal utmInit k) := by
  intro s ps hs hp k hk
  simp only [extractUtmFromUrl, if_neg hs, hp]
  exact findVal_foldParams k hk ps utmInit

theorem extractUtmFromUrl_keeps_extra_utm_keys_witness :
    ("/?utm_source=google&utm_id=x&utm_id=y" : String) ≠ "" ∧
    parseUrlQuery (baseUrl "/?utm_source=google&utm_id=x&utm_id=y") =
      some [("utm_source", "google"), ("utm_id", "x"), ("utm_id", "y")] ∧
    strStarts "utm_" "utm_id" = true ∧
    findVal (extractUtmFromUrl "/?utm_source=google&utm_id=x&utm_id=y") "utm_id" =
      some "y" := by
  refine ⟨by decide, by decide, by decide, ?_⟩
  rw [extractUtmFromUrl_keeps_extra_utm_keys
    "/?utm_source=google&utm_id=x&utm_id=y"
    [("utm_source", "google"), ("utm_id", "x"), ("utm_id", "y")]
    (by decide) (by decide) "utm_id" (by decide)]
  decide

/-- C2 (counterexample): an OK upstream response whose JSON body has no
`count` field makes `fetchOrdersCount` return the integer 0 successfully —
it does not fail, contradicting the claim that a missing/invalid count is
treated as failure rather than as zero. -/
theorem fetchOrdersCount_missing_count_yields_zero :
    fetchOrdersCount countRespNoCount = Except.ok (Json.num 0) := rfl

/-- C2 (amended): `fetchOrdersCount` issues its single request and: a
non-success response fails with the upstream status and body in the error; a
success whose `count` field is truthy (in particular a non-zero integer)
returns that reported value; a success whose `count` field is missing or
falsy returns the integer 0 — not a failure. -/
theorem fetchOrdersCount_semantics :
    ∀ r : CountResp,
      (r.ok = false →
        fetchOrdersCount r =
          Except.error ("Shopify count error: " ++ toString r.status ++ " - " ++ r.bodyText)) ∧
      (r.ok = true → (jsGet r.body "count").truthy = false →
        fetchOrdersCount r = Except.ok (Json.num 0)) ∧
      (∀ n : Int, r.ok = true → jsGet r.body "count" = Json.num n → n ≠ 0 →
        fetchOrdersCount r = Except.ok (Json.num n)) := by
  intro r
  refine ⟨fun h => ?_, fun h ht => ?_, fun n h hc hn => ?_⟩
  · simp [fetchOrdersCount, h]
  · simp [fetchOrdersCount, h, jsOrJ, ht]
  · have htr : (Json.num n).truthy = true := by
      simp [Json.truthy, hn]
    simp [fetchOrdersCount, h, jsOrJ, hc, htr]

theorem fetchOrdersCount_semantics_witness :
    countRespSeven.ok = true ∧
    jsGet countRespSeven.body "count" = Json.num 7 ∧
    (7 : Int) ≠ 0 ∧
    fetchOrdersCount countRespSeven = Except.ok (Json.num 7) :=
  ⟨rfl, rfl, by decide,
   (fetchOrdersCount_semantics countRespSeven).2.2 7 rfl rfl (by decide)⟩

/-- C1 (code-bug evaluation): both normalizers honour the fixed precedence —
on an order whose landing URL, referring URL and note attributes all carry
`utm_source`, `mapOrderToRow` and `mapOrderNodeToRow` pick the landing value —
but the inline row construction of `fetchAllOrdersREST` does not: its
`Object.assign` merge lets the note-attribute value override the non-empty
landing value, and even overwrites a non-empty landing value with the empty
string when the note attributes carry no `utm_source` at all (the referring
URL is never consulted on that path). -/
theorem restPath_breaks_attribution_precedence :
    (mapOrderToRow oLandRefNote).utm_source = "land" ∧
    (mapOrderNodeToRow nodeLandRefNote).utm_source = "land" ∧
    (restRow oLandRefNote).utm_source = "note" ∧
    (mapOrderToRow oLandOnly).utm_source = "land" ∧
    (restRow oLandOnly).utm_source = "" := by
  exact ⟨by decide, by decide, by decide, by decide, by decide⟩

theorem emitRows_zero (rows : List Row) :
    ∀ count, emitRows 0 rows count = (rows, count + rows.length, false) := by
  induction rows with
  | nil => intro count; simp [emitRows]
  | cons r rest ih =>
    intro count
    simp [emitRows, ih (count + 1)]
    omega

theorem bulkLoop_zero (lines : List (Option Json)) :
    ∀ count, bulkLoop 0 lines count = (lines.flatMap lineRowsOpt, lines.length) := by
  induction lines with
  | nil => intro count; simp [bulkLoop]
  | cons l rest ih =>
    intro count
    cases l with
    | none => simp [bulkLoop, lineRowsOpt, ih count]
    | some j => simp [bulkLoop, lineRowsOpt, emitRows_zero, ih]

/-- C6: a line of the bulk export that fails JSON parsing is skipped without
aborting the stream or losing the rows of any other line (removing it changes
nothing else in the emitted rows), and each well-formed line is normalized
according to its shape: the concrete file holding a wrapped-edges line, a
malformed line, a wrapped single-node line and a bare order object yields
exactly the rows of the three well-formed lines. -/
theorem bulkDownload_skips_malformed_lines :
    (∀ pre post : List (Option Json),
      (bulkLoop 0 (pre ++ none :: post) 0).1 = (bulkLoop 0 (pre ++ post) 0).1) ∧
    (bulkLoop 0 [some lineWrappedEdges, none, some lineSingleNode, some lineBareObject] 0).1 =
      [rowWrappedA, rowWrappedB, rowSingleC, rowBareD] := by
  constructor
  · intro pre post
    simp [bulkLoop_zero, lineRowsOpt]
  · decide

/-- C7 (code-bug evaluation): on a bulk export of 100 rows with
`preview = 3`, the loop emits exactly the first 3 data rows after the header
record and stops consuming the stream after 3 of the 100 lines (early close);
but while the `src/README.md` revisions separate the header and the 3 records
with newlines (4 newline characters in the output), the `src/server.js`
revision writes the two-character literal backslash-n between records, so its
output contains no newline at all and is a single physical line instead of a
header line followed by 3 data rows. -/
theorem bulkPreview_truncates_but_serverjs_has_no_newlines :
    (bulkLoop 3 (List.replicate 100 (some lineBareMinimal)) 0).1 =
      List.replicate 3 rowBareMinimal ∧
    (bulkLoop 3 (List.replicate 100 (some lineBareMinimal)) 0).2 = 3 ∧
    (bulkLoop 3 (List.replicate 100 (some lineBareMinimal)) 0).2 < 100 ∧
    (renderOutput sepReadme (List.replicate 3 rowBareMinimal)).data.count '\n' = 4 ∧
    (renderOutput sepServerJs (List.replicate 3 rowBareMinimal)).data.count '\n' = 0 := by
  exact ⟨by decide, by decide, by decide, by decide, by decide⟩

/-- C8: the rows of the paginated retrieval endpoint are sorted by the raw ISO
timestamp, descending, in every revision: the `created_at_raw` revision's
comparator orders by `dateVal created_at_raw` whenever the raw field is
populated (never by the display-formatted `created_at` string), and the
revisions whose rows keep the raw timestamp in `created_at` order by that raw
value; in both cases the sort is a permutation of its input. -/
theorem ordersSortedByRawTimestamp :
    (∀ l : List Row2, (∀ r ∈ l, r.created_at_raw ≠ "") →
      List.Sorted (fun a b => dateVal b.created_at_raw ≤ dateVal a.created_at_raw)
        (sortRows2 l) ∧
      (sortRows2 l).Perm l) ∧
    (∀ l : List Row,
      List.Sorted (fun a b => dateVal b.created_at ≤ dateVal a.created_at)
        (sortRows l) ∧
      (sortRows l).Perm l) := by
  constructor
  · intro l h
    have hperm := List.perm_insertionSort row2Desc l
    refine ⟨?_, hperm⟩
    have hs := List.sorted_insertionSort row2Desc l
    refine List.Pairwise.imp_of_mem ?_ hs
    intro a b ha hb hab
    have ha' := h a (hperm.mem_iff.mp ha)
    have hb' := h b (hperm.mem_iff.mp hb)
    unfold row2Desc at hab
    rwa [jsOr_of_ne ha', jsOr_of_ne hb'] at hab
  · intro l
    exact ⟨List.sorted_insertionSort rowDesc l, List.perm_insertionSort rowDesc l⟩

theorem restPush_spec (cap : Nat) :
    ∀ (pg : List RestOrder) (acc : List Row), acc.length < cap →
      restPush cap pg acc = acc ++ (pg.map restRow).take (cap - acc.length) := by
  intro pg
  induction pg with
  | nil =>
    intro acc h
    simp [restPush]
  | cons o os ih =>
    intro acc h
    simp only [restPush]
    by_cases hstop : cap ≤ (acc ++ [restRow o]).length
    · rw [if_pos hstop]
      have h1 : cap - acc.length = 1 := by
        simp only [List.length_append, List.length_cons, List.length_nil] at hstop
        omega
      have h2 : (restRow o :: os.map restRow).take 1 = [restRow o] := rfl
      rw [List.map_cons, h1, h2]
    · rw [if_neg hstop]
      have hlt : (acc ++ [restRow o]).length < cap := by
        simp only [List.length_append, List.length_cons, List.length_nil] at hstop ⊢
        omega
      rw [ih _ hlt]
      have h3 : cap - acc.length = (cap - (acc ++ [restRow o]).length) + 1 := by
        simp only [List.length_append, List.length_cons, List.length_nil]
        omega
      rw [List.map_cons, h3, List.take_succ_cons]
      simp

theorem restLoop_spec (cap : Nat) :
    ∀ (pages : List (List RestOrder)) (acc : List Row), acc.length < cap →
      (restLoop cap pages acc).1 =
        acc ++ ((pages.flatten.map restRow).take (cap - acc.length)) ∧
      (restLoop cap pages acc).2 ≤ pages.length ∧
      (∀ r, 0 < r → r < (restLoop cap pages acc).2 →
        acc.length + ((pages.take r).flatten).length < cap) := by
  intro pages
  induction pages with
  | nil =>
    intro acc h
    refine ⟨by simp [restLoop], by simp [restLoop], ?_⟩
    intro r hr0 hr
    simp [restLoop] at hr
  | cons pg rest ih =>
    intro acc h
    have hpush := restPush_spec cap pg acc h
    have hlen2 : (restPush cap pg acc).length = acc.length + min (cap - acc.length) pg.length := by
      rw [hpush]
      simp [List.length_take]
    cases rest with
    | nil =>
      have hres : restLoop cap [pg] acc = (restPush cap pg acc, 1) := by
        simp only [restLoop]
        split <;> rfl
      rw [hres]
      refine ⟨?_, by simp, ?_⟩
      · rw [hpush, show (([pg] : List (List RestOrder)).flatten) = pg ++ [] from rfl,
          List.append_nil]
      · intro r hr0 hr1
        omega
    | cons p2 r2 =>
      by_cases hstop : cap ≤ (restPush cap pg acc).length
      · have hres : restLoop cap (pg :: p2 :: r2) acc = (restPush cap pg acc, 1) := by
          simp only [restLoop, if_pos hstop]
        rw [hres]
        refine ⟨?_, by simp, ?_⟩
        · rw [hpush, show ((pg :: p2 :: r2).flatten) = pg ++ (p2 :: r2).flatten from rfl,
            List.map_append, List.take_append_eq_append_take]
          have hz : cap - acc.length - (pg.map restRow).length = 0 := by
            simp only [List.length_map]
            omega
          rw [hz, List.take_zero, List.append_nil]
        · intro r hr0 hr1
          omega
      · have hltacc2 : (restPush cap pg acc).length < cap := by omega
        have hpgfull : restPush cap pg acc = acc ++ pg.map restRow := by
          rw [hpush]
          congr 1
          apply List.take_of_length_le
          simp only [List.length_map]
          omega
        have hlenacc2 : (restPush cap pg acc).length = acc.length + pg.length := by
          rw [hpgfull]
          simp
        have hres : restLoop cap (pg :: p2 :: r2) acc =
            ((restLoop cap (p2 :: r2) (restPush cap pg acc)).1,
             (restLoop cap (p2 :: r2) (restPush cap pg acc)).2 + 1) := by
          simp only [restLoop, if_neg hstop]
        rw [hres]
        obtain ⟨ha, hb, hc⟩ := ih (restPush cap pg acc) hltacc2
        refine ⟨?_, ?_, ?_⟩
        · rw [ha, hpgfull]
          have htk : (pg.map restRow).take (cap - acc.length) = pg.map restRow := by
            rw [List.take_of_length_le]
            simp only [List.length_map]
            omega
          rw [show ((pg :: p2 :: r2).flatten) = pg ++ (p2 :: r2).flatten from rfl,
            List.map_append, List.take_append_eq_append_take, htk]
          have e3 : cap - (acc ++ pg.map restRow).length =
              cap - acc.length - (pg.map restRow).length := by
            simp only [List.length_append, List.length_map]
            omega
          rw [e3, List.append_assoc]
        · simp only [List.length_cons] at hb ⊢
          omega
        · intro r hr0 hr1
          cases r with
          | zero => omega
          | succ r' =>
            rw [List.take_succ_cons, List.flatten_cons, List.length_append]
            by_cases hr' : r' = 0
            · subst hr'
              simp only [List.take_zero, List.flatten_nil, List.length_nil, Nat.add_zero]
              omega
            · have hr'pos : 0 < r' := Nat.pos_of_ne_zero hr'
              have hcr := hc r' hr'pos (by omega)
              rw [hlenacc2] at hcr
              omega

/-- C3 (counterexample): with `resultCap = 0` the loop pushes the first row of
the first page before checking the cap, so the result is not the
concatenation truncated at 0 rows (the claim quantifies over every
resultCap). -/
theorem fetchAllOrdersREST_cap_zero_not_truncated :
    ¬ ((fetchAllOrdersREST [[oPage 1]] 0).1 =
        (([[oPage 1]] : List (List RestOrder)).flatten.map restRow).take 0) := by
  decide

/-- C3 (amended): for every upstream page sequence (each page linked via a
next header except the last) and every `resultCap ≥ 1`, `fetchAllOrdersREST`
returns exactly the in-order concatenation of the pages' normalized rows
truncated at `resultCap`, issues no more requests than there are pages, and
issues a non-initial page request only while the accumulated row count is
still below the cap (so no request is made solely to discard its result). -/
theorem fetchAllOrdersREST_pagination :
    ∀ (pages : List (List RestOrder)) (cap : Nat), 1 ≤ cap →
      (fetchAllOrdersREST pages cap).1 = (pages.flatten.map restRow).take cap ∧
      (fetchAllOrdersREST pages cap).2 ≤ pages.length ∧
      (∀ r, 0 < r → r < (fetchAllOrdersREST pages cap).2 →
        ((pages.take r).flatten).length < cap) := by
  intro pages cap hcap
  have h := restLoop_spec cap pages [] (by simpa using hcap)
  refine ⟨?_, h.2.1, ?_⟩
  · simpa [fetchAllOrdersREST] using h.1
  · intro r hr0 hr1
    have := h.2.2 r hr0 hr1
    simpa using this

theorem fetchAllOrdersREST_pagination_witness :
    1 ≤ 3 ∧
    ((fetchAllOrdersREST [[oPage 1, oPage 2], [oPage 3, oPage 4]] 3).1 =
      (([[oPage 1, oPage 2], [oPage 3, oPage 4]] :
        List (List RestOrder)).flatten.map restRow).take 3 ∧
     (fetchAllOrdersREST [[oPage 1, oPage 2], [oPage 3, oPage 4]] 3).2 ≤ 2 ∧
     (∀ r, 0 < r → r < (fetchAllOrdersREST [[oPage 1, oPage 2], [oPage 3, oPage 4]] 3).2 →
       ((([[oPage 1, oPage 2], [oPage 3, oPage 4]] :
         List (List RestOrder)).take r).flatten).length < 3)) :=
  ⟨by decide,
   fetchAllOrdersREST_pagination [[oPage 1, oPage 2], [oPage 3, oPage 4]] 3 (by decide)⟩

theorem ordersSortedByRawTimestamp_witness :
    (∀ r ∈ [row2Early, row2Late], r.created_at_raw ≠ "") ∧
    List.Sorted (fun a b => dateVal b.created_at_raw ≤ dateVal a.created_at_raw)
      (sortRows2 [row2Early, row2Late]) ∧
    (sortRows2 [row2Early, row2Late]).Perm [row2Early, row2Late] :=
  ⟨by decide,
   (ordersSortedByRawTimestamp.1 [row2Early, row2Late] (by decide)).1,
   (ordersSortedByRawTimestamp.1 [row2Early, row2Late] (by decide)).2⟩

end UtmOrders
